import Mathlib

/-!
Verification of the malformatted-CSV row classifier from
`Structural_pattern_matching_for_data_science.ipynb`.

The notebook code splits a text on newlines, splits each line on commas,
and matches the resulting token list against five ordered patterns, with
a defensive catch-all that raises an exception:

* `[x, y, z]` keeps the three tokens,
* `[x, y]` appends a `None`,
* `[""]` skips the row,
* `["1"]` emits the numeric record `[1, 2, 3]`,
* `[x]` emits `[x, None, None]`,
* anything else raises.
-/

namespace Py310

/-- A cell of an output record: either a text token kept from the input,
an integer literal (the notebook appends the literals 1, 2, 3), or the
absent-value marker (the `None` of the source language). -/
inductive Cell where
  | str : String → Cell
  | int : Nat → Cell
  | none : Cell
deriving DecidableEq, Repr

instance {ε α : Type} [DecidableEq ε] [DecidableEq α] : DecidableEq (Except ε α)
  | .ok a, .ok b =>
    if h : a = b then .isTrue (by rw [h]) else .isFalse (fun hh => h (Except.ok.inj hh))
  | .error a, .error b =>
    if h : a = b then .isTrue (by rw [h]) else .isFalse (fun hh => h (Except.error.inj hh))
  | .ok _, .error _ => .isFalse Except.noConfusion
  | .error _, .ok _ => .isFalse Except.noConfusion

/-- Auxiliary for `pySplit`: walks the character list, accumulating the
current field in reverse. -/
def splitCharAux (sep : Char) : List Char → List Char → List (List Char)
  | [], acc => [acc.reverse]
  | c :: cs, acc =>
    if c = sep then acc.reverse :: splitCharAux sep cs []
    else splitCharAux sep cs (c :: acc)

/-- The `str.split(sep)` operation of the source language, for a
one-character separator: splitting the empty string yields `[""]`, and
`"a,,b"` split on a comma yields `["a", "", "b"]`. -/
def pySplit (sep : Char) (s : String) : List String :=
  (splitCharAux sep s.data []).map String.mk

/-- The message of the defensive `raise Exception(...)` in the notebook. -/
def errMsg : String :=
  "This should not happen. We want to handle every case explicitely."

/-- The body of the `match line.split(","):` statement of the notebook.
`ok (some r)` means the branch appends record `r`, `ok none` means the
`continue` branch (skip), and `error` is the `raise` in the catch-all.
The patterns appear in the order of the notebook; first match wins. -/
def classifyRow : List String → Except String (Option (List Cell))
  | [x, y, z] => .ok (some [.str x, .str y, .str z])
  | [x, y] => .ok (some [.str x, .str y, .none])
  | [""] => .ok Option.none
  | ["1"] => .ok (some [.int 1, .int 2, .int 3])
  | [x] => .ok (some [.str x, .none, .none])
  | _ => .error errMsg

/-- The `for line in bad_csv.split("\n"):` loop over an explicit list of
lines: each line is split on commas and classified; a raised exception
aborts the whole computation. -/
def processRows : List String → Except String (List (List Cell))
  | [] => .ok []
  | line :: rest =>
    match classifyRow (pySplit ',' line) with
    | .error e => .error e
    | .ok Option.none => processRows rest
    | .ok (some r) =>
      match processRows rest with
      | .error e => .error e
      | .ok tail => .ok (r :: tail)

/-- The whole transformation: split the text on newlines and run the loop. -/
def transform (text : String) : Except String (List (List Cell)) :=
  processRows (pySplit '\n' text)

/-- The `bad_csv` triple-quoted string of the notebook (leading and
trailing newline included). -/
def bad_csv : String := "\n0,1,2\n1,2,3\n1,2\n0\n1\n"

/-- The variant of the classifier in which rule 5 (generic single-token
capture `[x]`) is checked before rule 4 (literal `["1"]`): the generic
capture then matches every single token, so the `["1"]` branch can never
fire and is omitted. -/
def classifyRowSwapped : List String → Except String (Option (List Cell))
  | [x, y, z] => .ok (some [.str x, .str y, .str z])
  | [x, y] => .ok (some [.str x, .str y, .none])
  | [""] => .ok Option.none
  | [x] => .ok (some [.str x, .none, .none])
  | _ => .error errMsg

/-- The record a single row contributes to the output, if any: `none`
both for a skipped row and for a row on which the match raises. Used to
state order preservation of the loop. -/
def rowRecord (line : String) : Option (List Cell) :=
  match classifyRow (pySplit ',' line) with
  | .ok r => r
  | .error _ => Option.none

/-! ### Helper lemmas -/

theorem splitCharAux_ne_nil (sep : Char) (cs : List Char) :
    ∀ acc, splitCharAux sep cs acc ≠ [] := by
  induction cs with
  | nil => intro acc; simp [splitCharAux]
  | cons c cs ih =>
    intro acc
    simp only [splitCharAux]
    split
    · simp
    · exact ih _

theorem pySplit_length_pos (sep : Char) (s : String) :
    1 ≤ (pySplit sep s).length := by
  unfold pySplit
  rw [List.length_map]
  cases h : splitCharAux sep s.data [] with
  | nil => exact absurd h (splitCharAux_ne_nil sep s.data [])
  | cons a t => simp

theorem pySplit_ne_nil (sep : Char) (s : String) : pySplit sep s ≠ [] := by
  intro h
  have hp := pySplit_length_pos sep s
  rw [h] at hp
  simp at hp

theorem classifyRow_single (x : String) (h1 : x ≠ "") (h2 : x ≠ "1") :
    classifyRow [x] = .ok (some [.str x, .none, .none]) := by
  simp [classifyRow, h1, h2]

theorem classifyRow_single_isOk (x : String) : ∃ r, classifyRow [x] = .ok r := by
  by_cases h1 : x = ""
  · subst h1
    exact ⟨Option.none, by simp [classifyRow]⟩
  · by_cases h2 : x = "1"
    · subst h2
      exact ⟨some [.int 1, .int 2, .int 3], by simp [classifyRow]⟩
    · exact ⟨some [.str x, .none, .none], classifyRow_single x h1 h2⟩

theorem classifyRow_error_iff (row : List String) :
    classifyRow row = .error errMsg ↔ (row = [] ∨ 4 ≤ row.length) := by
  match row with
  | [] => simp [classifyRow]
  | [x] =>
    obtain ⟨r, hr⟩ := classifyRow_single_isOk x
    rw [hr]
    simp
  | [x, y] => simp [classifyRow]
  | [x, y, z] => simp [classifyRow]
  | x :: y :: z :: w :: t =>
    simp only [classifyRow, List.length_cons]
    constructor
    · intro _; right; omega
    · intro _; trivial

theorem classifyRow_error_msg (row : List String) (e : String)
    (h : classifyRow row = .error e) : e = errMsg := by
  match row with
  | [] =>
    simp [classifyRow] at h
    exact h.symm
  | [x] =>
    obtain ⟨r, hr⟩ := classifyRow_single_isOk x
    rw [hr] at h
    cases h
  | [x, y] => simp [classifyRow] at h
  | [x, y, z] => simp [classifyRow] at h
  | x :: y :: z :: w :: t =>
    simp [classifyRow] at h
    exact h.symm

theorem classifyRow_ok_of_short :
    ∀ (row : List String), row ≠ [] → row.length ≤ 3 →
      ∃ r, classifyRow row = .ok r
  | [], h1, _ => absurd rfl h1
  | [x], _, _ => classifyRow_single_isOk x
  | [x, y], _, _ => ⟨some [.str x, .str y, .none], by simp [classifyRow]⟩
  | [x, y, z], _, _ => ⟨some [.str x, .str y, .str z], by simp [classifyRow]⟩
  | x :: y :: z :: w :: t, _, h2 =>
    absurd h2 (by simp only [List.length_cons]; omega)

theorem classifyRow_record_shape (row : List String) (r : List Cell)
    (h : classifyRow row = .ok (some r)) :
    r.length = 3 ∧ ∀ c ∈ r,
      (∃ s, c = .str s) ∨ (∃ n, 1 ≤ n ∧ n ≤ 3 ∧ c = .int n) ∨ c = .none := by
  match row with
  | [] => simp [classifyRow] at h
  | [x] =>
    by_cases h1 : x = ""
    · subst h1
      simp [classifyRow] at h
    · by_cases h2 : x = "1"
      · subst h2
        simp only [classifyRow, Except.ok.injEq, Option.some.injEq] at h
        subst h
        refine ⟨rfl, ?_⟩
        intro c hc
        simp only [List.mem_cons, List.not_mem_nil, or_false] at hc
        rcases hc with rfl | rfl | rfl
        · exact Or.inr (Or.inl ⟨1, by omega, by omega, rfl⟩)
        · exact Or.inr (Or.inl ⟨2, by omega, by omega, rfl⟩)
        · exact Or.inr (Or.inl ⟨3, by omega, by omega, rfl⟩)
      · rw [classifyRow_single x h1 h2] at h
        simp only [Except.ok.injEq, Option.some.injEq] at h
        subst h
        refine ⟨rfl, ?_⟩
        intro c hc
        simp only [List.mem_cons, List.not_mem_nil, or_false] at hc
        rcases hc with rfl | rfl | rfl
        · exact Or.inl ⟨x, rfl⟩
        · exact Or.inr (Or.inr rfl)
        · exact Or.inr (Or.inr rfl)
  | [x, y] =>
    simp only [classifyRow, Except.ok.injEq, Option.some.injEq] at h
    subst h
    refine ⟨rfl, ?_⟩
    intro c hc
    simp only [List.mem_cons, List.not_mem_nil, or_false] at hc
    rcases hc with rfl | rfl | rfl
    · exact Or.inl ⟨x, rfl⟩
    · exact Or.inl ⟨y, rfl⟩
    · exact Or.inr (Or.inr rfl)
  | [x, y, z] =>
    simp only [classifyRow, Except.ok.injEq, Option.some.injEq] at h
    subst h
    refine ⟨rfl, ?_⟩
    intro c hc
    simp only [List.mem_cons, List.not_mem_nil, or_false] at hc
    rcases hc with rfl | rfl | rfl
    · exact Or.inl ⟨x, rfl⟩
    · exact Or.inl ⟨y, rfl⟩
    · exact Or.inl ⟨z, rfl⟩
  | x :: y :: z :: w :: t => simp [classifyRow] at h

theorem processRows_ok_filterMap (lines : List String) (out : List (List Cell))
    (h : processRows lines = .ok out) : out = lines.filterMap rowRecord := by
  induction lines generalizing out with
  | nil =>
    unfold processRows at h
    injection h with h
    subst h
    rfl
  | cons l rest ih =>
    unfold processRows at h
    cases hc : classifyRow (pySplit ',' l) with
    | error e =>
      rw [hc] at h
      exact Except.noConfusion h
    | ok ro =>
      rw [hc] at h
      have hr : rowRecord l = ro := by unfold rowRecord; rw [hc]
      cases ro with
      | none =>
        simp only [List.filterMap_cons, hr]
        exact ih out h
      | some r =>
        cases hp : processRows rest with
        | error e =>
          rw [hp] at h
          exact Except.noConfusion h
        | ok tail =>
          rw [hp] at h
          injection h with h
          subst h
          simp only [List.filterMap_cons, hr]
          rw [ih tail hp]

theorem processRows_ok_of_short (lines : List String)
    (h : ∀ l ∈ lines, (pySplit ',' l).length ≤ 3) :
    ∃ out, processRows lines = .ok out := by
  induction lines with
  | nil => exact ⟨[], rfl⟩
  | cons l rest ih =>
    obtain ⟨r, hc⟩ :=
      classifyRow_ok_of_short _ (pySplit_ne_nil ',' l) (h l (by simp))
    obtain ⟨out, hp⟩ := ih (fun a ha => h a (List.mem_cons_of_mem _ ha))
    cases r with
    | none =>
      refine ⟨out, ?_⟩
      unfold processRows
      rw [hc]
      exact hp
    | some r =>
      refine ⟨r :: out, ?_⟩
      unfold processRows
      rw [hc, hp]

theorem processRows_error_msg (lines : List String) :
    ∀ e, processRows lines = .error e → e = errMsg := by
  induction lines with
  | nil =>
    intro e h
    unfold processRows at h
    exact Except.noConfusion h
  | cons l rest ih =>
    intro e h
    unfold processRows at h
    cases hc : classifyRow (pySplit ',' l) with
    | error e2 =>
      rw [hc] at h
      injection h with h
      rw [← h]
      exact classifyRow_error_msg _ _ hc
    | ok ro =>
      rw [hc] at h
      cases ro with
      | none => exact ih e h
      | some r =>
        cases hp : processRows rest with
        | error e2 =>
          rw [hp] at h
          injection h with h
          rw [← h]
          exact ih e2 hp
        | ok tail =>
          rw [hp] at h
          exact Except.noConfusion h

theorem processRows_error_iff (lines : List String) :
    processRows lines = .error errMsg ↔
      ∃ l ∈ lines, 4 ≤ (pySplit ',' l).length := by
  induction lines with
  | nil => simp [processRows]
  | cons l rest ih =>
    by_cases hl : 4 ≤ (pySplit ',' l).length
    · have hc : classifyRow (pySplit ',' l) = .error errMsg :=
        (classifyRow_error_iff _).2 (Or.inr hl)
      constructor
      · intro _
        exact ⟨l, List.mem_cons_self l rest, hl⟩
      · intro _
        unfold processRows
        rw [hc]
    · obtain ⟨r, hc⟩ :=
        classifyRow_ok_of_short _ (pySplit_ne_nil ',' l) (by omega)
      have hmem : ∀ a, a ∈ l :: rest → 4 ≤ (pySplit ',' a).length →
          a ∈ rest := by
        intro a ha h4
        rcases List.mem_cons.1 ha with rfl | ha
        · exact absurd h4 hl
        · exact ha
      cases r with
      | none =>
        unfold processRows
        rw [hc, ih]
        constructor
        · rintro ⟨a, ha, h4⟩
          exact ⟨a, List.mem_cons_of_mem _ ha, h4⟩
        · rintro ⟨a, ha, h4⟩
          exact ⟨a, hmem a ha h4, h4⟩
      | some r =>
        unfold processRows
        rw [hc]
        cases hp : processRows rest with
        | error e =>
          have he : e = errMsg := processRows_error_msg rest e hp
          subst he
          obtain ⟨a, ha, h4⟩ := ih.1 hp
          constructor
          · intro _
            exact ⟨a, List.mem_cons_of_mem _ ha, h4⟩
          · intro _
            rfl
        | ok tail =>
          constructor
          · intro hcontr
            exact Except.noConfusion hcontr
          · rintro ⟨a, ha, h4⟩
            have hrest : processRows rest = .error errMsg :=
              ih.2 ⟨a, hmem a ha h4, h4⟩
            rw [hp] at hrest
            exact Except.noConfusion hrest

theorem processRows_append_error (pre : List String) (bad : String)
    (rest : List String)
    (hpre : ∀ l ∈ pre, (pySplit ',' l).length ≤ 3)
    (hbad : 4 ≤ (pySplit ',' bad).length) :
    processRows (pre ++ bad :: rest) = .error errMsg := by
  induction pre with
  | nil =>
    have hc : classifyRow (pySplit ',' bad) = .error errMsg :=
      (classifyRow_error_iff _).2 (Or.inr hbad)
    simp only [List.nil_append]
    unfold processRows
    rw [hc]
  | cons p ps ih =>
    obtain ⟨r, hc⟩ :=
      classifyRow_ok_of_short _ (pySplit_ne_nil ',' p) (hpre p (by simp))
    have ih2 := ih (fun a ha => hpre a (List.mem_cons_of_mem _ ha))
    simp only [List.cons_append]
    cases r with
    | none =>
      unfold processRows
      rw [hc]
      exact ih2
    | some r =>
      unfold processRows
      rw [hc, ih2]

theorem processRows_rect (lines : List String) (out : List (List Cell))
    (h : processRows lines = .ok out) :
    ∀ r ∈ out, r.length = 3 ∧ ∀ c ∈ r,
      (∃ s, c = .str s) ∨ (∃ n, 1 ≤ n ∧ n ≤ 3 ∧ c = .int n) ∨ c = .none := by
  induction lines generalizing out with
  | nil =>
    unfold processRows at h
    injection h with h
    subst h
    intro r hr
    exact absurd hr (List.not_mem_nil r)
  | cons l rest ih =>
    unfold processRows at h
    cases hc : classifyRow (pySplit ',' l) with
    | error e =>
      rw [hc] at h
      exact Except.noConfusion h
    | ok ro =>
      rw [hc] at h
      cases ro with
      | none => exact ih out h
      | some r =>
        cases hp : processRows rest with
        | error e =>
          rw [hp] at h
          exact Except.noConfusion h
        | ok tail =>
          rw [hp] at h
          injection h with h
          subst h
          intro rec hrec
          rcases List.mem_cons.1 hrec with rfl | hrec
          · exact classifyRow_record_shape _ _ hc
          · exact ih tail hp rec hrec

/-! ### Claim theorems -/

/-- C1 (counterexample): the claim that the catch-all is never reached for
every input text is false: on the text `"x,y,z,w"` (one line with four
comma-separated tokens) the transformation raises the defensive
exception. -/
theorem C1_counterexample : transform "x,y,z,w" = .error errMsg := rfl

/-- C1 (amended): for every input text each of whose lines splits into at
most 3 comma-separated tokens, the catch-all branch is never reached and
the transformation returns normally. -/
theorem C1_no_raise (text : String)
    (h : ∀ line ∈ pySplit '\n' text, (pySplit ',' line).length ≤ 3) :
    ∃ out, transform text = .ok out :=
  processRows_ok_of_short (pySplit '\n' text) h

/-- C1 (witness): the amended theorem applied to a concrete text. -/
theorem C1_witness : ∃ out, transform "0,1,2\n1,2\n0\n1\n" = .ok out :=
  C1_no_raise "0,1,2\n1,2\n0\n1\n" (by decide)

/-- C2: running the transformation on `"0,1,2\n1,2,3\n1,2\n0\n1\n"`
produces exactly the five records of the spec, with the trailing empty
row skipped. -/
theorem C2_end_to_end :
    transform "0,1,2\n1,2,3\n1,2\n0\n1\n" =
      .ok [[.str "0", .str "1", .str "2"],
        [.str "1", .str "2", .str "3"],
        [.str "1", .str "2", .none],
        [.str "0", .none, .none],
        [.int 1, .int 2, .int 3]] := rfl

/-- C3: rule order is semantically significant: on the row `["1"]` the
classifier of the notebook returns the numeric record `[1, 2, 3]`, while
the variant with rule 5 checked before rule 4 returns
`["1", absent, absent]`; the two results differ, so the variants are not
equivalent. -/
theorem C3_rule_order_significant :
    classifyRow ["1"] = .ok (some [.int 1, .int 2, .int 3]) ∧
    classifyRowSwapped ["1"] = .ok (some [.str "1", .none, .none]) ∧
    decide (classifyRow ["1"] = classifyRowSwapped ["1"]) = false :=
  ⟨rfl, rfl, rfl⟩

/-- C4: every row that splits into the single token `"1"` yields the
fixed numeric record `[1, 2, 3]`: rule 4 takes priority over the generic
single-token rule 5. -/
theorem C4_literal_one (line : String)
    (h : pySplit ',' line = ["1"]) :
    classifyRow (pySplit ',' line) = .ok (some [.int 1, .int 2, .int 3]) := by
  rw [h]
  simp [classifyRow]

/-- C4 (witness): the concrete row `"1"`. -/
theorem C4_witness :
    pySplit ',' "1" = ["1"] ∧
    classifyRow (pySplit ',' "1") = .ok (some [.int 1, .int 2, .int 3]) :=
  ⟨by decide, C4_literal_one "1" (by decide)⟩

/-- C5: every row that splits into exactly 3 tokens `[x, y, z]` yields
the record of the three tokens unchanged and in order. -/
theorem C5_three_tokens (line x y z : String)
    (h : pySplit ',' line = [x, y, z]) :
    classifyRow (pySplit ',' line) = .ok (some [.str x, .str y, .str z]) := by
  rw [h]
  simp [classifyRow]

/-- C5 (witness): the concrete row `"a,b,c"`. -/
theorem C5_witness :
    pySplit ',' "a,b,c" = ["a", "b", "c"] ∧
    classifyRow (pySplit ',' "a,b,c") =
      .ok (some [.str "a", .str "b", .str "c"]) :=
  ⟨by decide, C5_three_tokens "a,b,c" "a" "b" "c" (by decide)⟩

/-- C6: every row that splits into exactly 2 tokens `[x, y]` yields the
two tokens in order with the absent-value marker appended. -/
theorem C6_two_tokens (line x y : String)
    (h : pySplit ',' line = [x, y]) :
    classifyRow (pySplit ',' line) = .ok (some [.str x, .str y, .none]) := by
  rw [h]
  simp [classifyRow]

/-- C6 (witness): the concrete row `"a,b"`. -/
theorem C6_witness :
    pySplit ',' "a,b" = ["a", "b"] ∧
    classifyRow (pySplit ',' "a,b") = .ok (some [.str "a", .str "b", .none]) :=
  ⟨by decide, C6_two_tokens "a,b" "a" "b" (by decide)⟩

/-- C7: every row that splits into exactly one token `x` with `x ≠ ""`
and `x ≠ "1"` yields the record `[x, absent, absent]`. -/
theorem C7_generic_single (line x : String)
    (h : pySplit ',' line = [x]) (h1 : x ≠ "") (h2 : x ≠ "1") :
    classifyRow (pySplit ',' line) = .ok (some [.str x, .none, .none]) := by
  rw [h]
  exact classifyRow_single x h1 h2

/-- C7 (witness): the concrete row `"0"`. -/
theorem C7_witness :
    pySplit ',' "0" = ["0"] ∧
    classifyRow (pySplit ',' "0") = .ok (some [.str "0", .none, .none]) :=
  ⟨by decide, C7_generic_single "0" "0" (by decide) (by decide) (by decide)⟩

/-- C8: rows equal to the empty string contribute no record, and the
output is the input rows in order restricted to the rows that produce a
record (a `filterMap`); the empty text splits into the single empty row
and therefore yields the empty output. -/
theorem C8_skip_and_order (lines : List String) (out : List (List Cell))
    (h : processRows lines = .ok out) :
    out = lines.filterMap rowRecord ∧
    rowRecord "" = Option.none ∧
    pySplit '\n' "" = [""] ∧
    transform "" = .ok [] :=
  ⟨processRows_ok_filterMap lines out h, rfl, rfl, rfl⟩

/-- C8 (witness): the concrete line list `["a,b", ""]`, whose empty row
is skipped. -/
theorem C8_witness :
    [[Cell.str "a", Cell.str "b", Cell.none]] =
      List.filterMap rowRecord ["a,b", ""] ∧
    rowRecord "" = Option.none ∧
    pySplit '\n' "" = [""] ∧
    transform "" = .ok [] :=
  C8_skip_and_order ["a,b", ""] [[Cell.str "a", Cell.str "b", Cell.none]] rfl

/-- C9: whenever the transformation returns normally, every record of
the output has exactly 3 elements, and each element is a text token, an
integer between 1 and 3, or the absent-value marker. -/
theorem C9_rectangular (text : String) (out : List (List Cell))
    (h : transform text = .ok out) :
    ∀ r ∈ out, r.length = 3 ∧ ∀ c ∈ r,
      (∃ s, c = .str s) ∨ (∃ n, 1 ≤ n ∧ n ≤ 3 ∧ c = .int n) ∨ c = .none :=
  processRows_rect (pySplit '\n' text) out h

/-- C9 (witness): the rectangularity theorem applied to the concrete
text `"a,b"`, instantiated at its single record and at the third cell of
that record. -/
theorem C9_witness :
    [Cell.str "a", Cell.str "b", Cell.none].length = 3 ∧
    ((∃ s, Cell.none = Cell.str s) ∨
      (∃ n, 1 ≤ n ∧ n ≤ 3 ∧ Cell.none = Cell.int n) ∨
      Cell.none = Cell.none) :=
  ⟨(C9_rectangular "a,b" [[Cell.str "a", Cell.str "b", Cell.none]] rfl
      [Cell.str "a", Cell.str "b", Cell.none] (by simp)).1,
   (C9_rectangular "a,b" [[Cell.str "a", Cell.str "b", Cell.none]] rfl
      [Cell.str "a", Cell.str "b", Cell.none] (by simp)).2
      Cell.none (by simp)⟩

/-- C10: the transformation raises the unhandled-row-shape exception if
and only if some line of the input splits into 4 or more comma-separated
tokens; splitting never yields arity 0; and the loop aborts with the
exception at the first such line, whatever follows it. -/
theorem C10_error_characterization :
    (∀ text, transform text = .error errMsg ↔
      ∃ line ∈ pySplit '\n' text, 4 ≤ (pySplit ',' line).length) ∧
    (∀ s, 1 ≤ (pySplit ',' s).length) ∧
    (∀ pre bad rest, (∀ l ∈ pre, (pySplit ',' l).length ≤ 3) →
      4 ≤ (pySplit ',' bad).length →
      processRows (pre ++ bad :: rest) = .error errMsg) :=
  ⟨fun text => processRows_error_iff (pySplit '\n' text),
   fun s => pySplit_length_pos ',' s,
   fun pre bad rest h1 h2 => processRows_append_error pre bad rest h1 h2⟩

/-- C10 (witness): the characterization applied to a concrete text with
a four-token line. -/
theorem C10_witness : transform "a,b,c,d\ne" = .error errMsg :=
  (C10_error_characterization.1 "a,b,c,d\ne").2
    ⟨"a,b,c,d", by decide, by decide⟩

end Py310
